import Mathlib

/-!
Verification of the semantique reducer library and query-recipe entry point.

The reducers in `semantique/processor/reducers.py` operate on floating-point
arrays in which `NaN` is the canonical no-data marker and the two infinities
are likewise non-finite.  We embed cell values as the inductive type `Val`
over the rationals: `nd` stands for NaN, `pinf`/`ninf` for the infinities and
`fin q` for a finite value.  `xarray.DataArray.reduce` applies each reducer's
inner aggregation function independently to every one-dimensional slice along
the reduced dimension, so the aggregations are embedded as functions
`List Val → Val` on a single slice; an array decomposed along the reduced
dimension is a `List (List Val)` of such slices.
-/

namespace Semantique

/-- Cell values of the rational embedding of the floating-point arrays:
`nd` is the NaN no-data marker, `pinf` and `ninf` are the infinities,
and `fin q` is a finite value. -/
inductive Val where
  | nd : Val
  | pinf : Val
  | ninf : Val
  | fin : ℚ → Val
deriving DecidableEq

/-- Embedding of `np.isfinite` on one cell: true exactly on finite values. -/
def isFinite : Val → Bool
  | .fin _ => true
  | _ => false

/-- Embedding of `np.sum(np.isfinite(x), axis)` on one slice. -/
def countFinite (xs : List Val) : ℕ := xs.countP (fun v => isFinite v)

/-- Embedding of the helper `_is_all_nodata` from `reducers.py`:
`np.equal(np.sum(np.isfinite(x), axis = axis), 0)`. -/
def _is_all_nodata (xs : List Val) : Bool := countFinite xs == 0

/-- Embedding of the helper `_nodata_as_zero` from `reducers.py`:
`np.nan_to_num(x, nan = 0, posinf = 0, neginf = 0)` maps NaN and both
infinities to zero and keeps finite cells. -/
def _nodata_as_zero (xs : List Val) : List Val :=
  xs.map (fun v => match v with
    | .fin q => .fin q
    | _ => .fin 0)

/-- Embedding of a numpy boolean placed back into a value array:
`True` is the cell 1, `False` the cell 0. -/
def ofBool (b : Bool) : Val := if b then Val.fin 1 else Val.fin 0

/-- IEEE addition on embedded cells: NaN propagates, opposite infinities
give NaN, an infinity absorbs finite values. -/
def vadd : Val → Val → Val
  | .nd, _ => .nd
  | _, .nd => .nd
  | .pinf, .ninf => .nd
  | .ninf, .pinf => .nd
  | .pinf, _ => .pinf
  | _, .pinf => .pinf
  | .ninf, _ => .ninf
  | _, .ninf => .ninf
  | .fin p, .fin q => .fin (p + q)

/-- IEEE negation on embedded cells. -/
def vneg : Val → Val
  | .nd => .nd
  | .pinf => .ninf
  | .ninf => .pinf
  | .fin q => .fin (-q)

/-- IEEE subtraction on embedded cells. -/
def vsub (a b : Val) : Val := vadd a (vneg b)

/-- IEEE multiplication on embedded cells: NaN propagates, an infinity times
zero is NaN, otherwise infinities follow the sign rules. -/
def vmul : Val → Val → Val
  | .nd, _ => .nd
  | _, .nd => .nd
  | .pinf, .pinf => .pinf
  | .pinf, .ninf => .ninf
  | .ninf, .pinf => .ninf
  | .ninf, .ninf => .pinf
  | .pinf, .fin q => if q = 0 then .nd else if 0 < q then .pinf else .ninf
  | .fin q, .pinf => if q = 0 then .nd else if 0 < q then .pinf else .ninf
  | .ninf, .fin q => if q = 0 then .nd else if 0 < q then .ninf else .pinf
  | .fin q, .ninf => if q = 0 then .nd else if 0 < q then .ninf else .pinf
  | .fin p, .fin q => .fin (p * q)

/-- IEEE division of a cell by a natural count (as used by `np.nanmean` and
`np.divide` in `percentage_`): NaN propagates, an infinity stays an infinity,
a finite value divided by zero is NaN at zero and an infinity otherwise. -/
def vdivNat : Val → ℕ → Val
  | .nd, _ => .nd
  | .pinf, _ => .pinf
  | .ninf, _ => .ninf
  | .fin p, 0 => if p = 0 then .nd else if 0 < p then .pinf else .ninf
  | .fin p, (n + 1) => .fin (p / (n + 1))

/-- Linear key of a non-NaN cell, used to compare cells:
`ninf` is bottom, `pinf` is top, finite values sit in between in rational
order.  (`nd` is mapped to bottom as well; every use first filters NaN out.) -/
def key : Val → WithBot (WithTop ℚ)
  | .nd => ⊥
  | .ninf => ⊥
  | .pinf => ((⊤ : WithTop ℚ) : WithBot (WithTop ℚ))
  | .fin q => (((q : ℚ) : WithTop ℚ) : WithBot (WithTop ℚ))

/-- Binary maximum of two cells under `key` (first argument wins ties). -/
def vmaxOp (a b : Val) : Val := if key a < key b then b else a

/-- Binary minimum of two cells under `key` (first argument wins ties). -/
def vminOp (a b : Val) : Val := if key b < key a then b else a

/-- Embedding of `np.nanmax` on one slice: NaN cells are ignored, the result
of an all-NaN slice is NaN. -/
def nanmax_f (xs : List Val) : Val :=
  match xs.filter (fun v => v != Val.nd) with
  | [] => Val.nd
  | h :: t => t.foldl vmaxOp h

/-- Embedding of `np.nanmin` on one slice. -/
def nanmin_f (xs : List Val) : Val :=
  match xs.filter (fun v => v != Val.nd) with
  | [] => Val.nd
  | h :: t => t.foldl vminOp h

/-- Embedding of `np.nansum` on one slice: NaN cells are treated as zero,
infinities participate in the IEEE sum. -/
def nansum (xs : List Val) : Val :=
  (xs.map (fun v => if v = Val.nd then Val.fin 0 else v)).foldl vadd (Val.fin 0)

/-- Embedding of `np.nanprod` on one slice: NaN cells are treated as one. -/
def nanprod (xs : List Val) : Val :=
  (xs.map (fun v => if v = Val.nd then Val.fin 1 else v)).foldl vmul (Val.fin 1)

/-- Inner aggregation of `mean_` in `reducers.py`: `np.nanmean(x, axis)`,
the sum of the non-NaN cells divided by their number. -/
def mean_f (xs : List Val) : Val :=
  vdivNat (nansum xs) (xs.countP (fun v => v != Val.nd))

/-- Inner aggregation of `sum_` in `reducers.py`: `np.nansum` guarded by
`np.where(_is_all_nodata(x, axis), np.nan, values)`. -/
def sum_f (xs : List Val) : Val :=
  let values := nansum xs
  if _is_all_nodata xs then Val.nd else values

/-- Inner aggregation of `product_` in `reducers.py`: `np.nanprod` guarded by
the all-no-data check. -/
def product_f (xs : List Val) : Val :=
  let values := nanprod xs
  if _is_all_nodata xs then Val.nd else values

/-- Inner aggregation of `variance_` in `reducers.py`: `np.nanvar(x, axis)`,
the mean of the squared deviations of the non-NaN cells from their mean. -/
def variance_f (xs : List Val) : Val :=
  let vals := xs.filter (fun v => v != Val.nd)
  let n := vals.length
  let m := vdivNat (vals.foldl vadd (Val.fin 0)) n
  vdivNat ((vals.map (fun v => vmul (vsub v m) (vsub v m))).foldl vadd (Val.fin 0)) n

/-- Square root on embedded cells.  Under the rational embedding the exact
real square root of a rational is not a rational; `Rat.sqrt` stands in for it.
No claim examines the finite output values of the standard deviation, only
its no-data behaviour, for which only the NaN and infinity cases matter. -/
def vsqrt : Val → Val
  | .nd => .nd
  | .pinf => .pinf
  | .ninf => .nd
  | .fin q => if q < 0 then .nd else .fin (Rat.sqrt q)

/-- Inner aggregation of `standard_deviation_` in `reducers.py`:
`np.nanstd(x, axis)`, the square root of `np.nanvar`. -/
def standard_deviation_f (xs : List Val) : Val := vsqrt (variance_f xs)

/-- Inner aggregation of `all_` in `reducers.py`: `np.all(x, axis)` guarded by
the all-no-data check.  Under numpy truthiness NaN and the infinities are
true and only the cell 0 is false. -/
def all_f (xs : List Val) : Val :=
  let values := ofBool (xs.all (fun v => v != Val.fin 0))
  if _is_all_nodata xs then Val.nd else values

/-- Inner aggregation of `any_` in `reducers.py`:
`np.any(_nodata_as_zero(x), axis = axis)`.  Note that unlike its siblings
`all_`, `sum_`, `product_`, `count_` and `mode_` it has no
`np.where(_is_all_nodata(x, axis), np.nan, values)` guard, so an
all-no-data slice yields the boolean false, not NaN. -/
def any_f (xs : List Val) : Val :=
  ofBool ((_nodata_as_zero xs).any (fun v => v != Val.fin 0))

/-- Inner aggregation of `count_` in `reducers.py`:
`np.count_nonzero(_nodata_as_zero(x), axis)` guarded by the all-no-data
check. -/
def count_f (xs : List Val) : Val :=
  let values := (_nodata_as_zero xs).countP (fun v => v != Val.fin 0)
  if _is_all_nodata xs then Val.nd else Val.fin values

/-- Inner aggregation of `percentage_` in `reducers.py`: the guarded nonzero
count divided by the finite count, multiplied by 100. -/
def percentage_f (xs : List Val) : Val :=
  let part : Val :=
    if _is_all_nodata xs then Val.nd
    else Val.fin ((_nodata_as_zero xs).countP (fun v => v != Val.fin 0))
  let whole := countFinite xs
  vmul (vdivNat part whole) (Val.fin 100)

/-- Inner aggregation of `median_` in `reducers.py`: `np.nanmedian(x, axis)`,
the middle of the non-NaN cells in increasing order, or the IEEE mean of the
two middle cells when their number is even; NaN on an empty set. -/
def median_f (xs : List Val) : Val :=
  let vals := (xs.filter (fun v => v != Val.nd)).mergeSort (fun a b => key a ≤ key b)
  let n := vals.length
  if n = 0 then Val.nd
  else if n % 2 = 1 then vals.getD (n / 2) Val.nd
  else vdivNat (vadd (vals.getD (n / 2 - 1) Val.nd) (vals.getD (n / 2) Val.nd)) 2

/-- Embedding of `np.cumsum` along one slice. -/
def cumsum : List ℕ → List ℕ
  | [] => []
  | a :: l => a :: (cumsum l).map (fun c => a + c)

/-- Inner aggregation of `first_` in `reducers.py`: mark the position where
the twice-cumulated finite-cell count equals 1, keep the cell there and NaN
everywhere else, then take `np.nanmax`. -/
def first_f (xs : List Val) : Val :=
  let is_value := xs.map (fun v => if isFinite v then 1 else 0)
  let is_last := (cumsum (cumsum is_value)).map (fun c => c == 1)
  nanmax_f (List.zipWith (fun v b => if b then v else Val.nd) xs is_last)

/-- Specification-side characterisation of `first_`: the first finite cell of
the slice in coordinate order, or no-data when there is none. -/
def firstFiniteSpec (xs : List Val) : Val :=
  match xs.find? (fun v => isFinite v) with
  | some v => v
  | none => Val.nd

/-- Modelled from the spec: `last_` is `first_` applied to the reduced
dimension reversed.  The inner function of `last_` in `reducers.py` instead
executes `first_(np.flip(x, axis = axis), axis = axis)`, a call that raises
`TypeError` (the required positional argument `dimension` of `first_` is
missing, and the flipped NumPy array has no `reduce` method), so the
intended aggregation is modelled here from the spec's words. -/
def last_spec (xs : List Val) : Val := first_f xs.reverse

/-- Candidate values of `stats.mode(x, axis, nan_policy = "omit")`: the
`omit` policy drops only NaN cells, so the infinities remain candidates. -/
def modeCandidates (xs : List Val) : List Val := xs.filter (fun v => v != Val.nd)

/-- One comparison step of the mode selection: `b` displaces `a` when it is
strictly more frequent in `ys`, or equally frequent and smaller. -/
def modeBetter (ys : List Val) (a b : Val) : Val :=
  if ys.count a < ys.count b ∨ (ys.count b = ys.count a ∧ key b < key a) then b else a

/-- Embedding of scipy's documented `stats.mode` with `nan_policy = "omit"`:
the most common non-NaN value, and when several values are tied for the
highest count, the smallest of them. -/
def stats_mode (xs : List Val) : Val :=
  match modeCandidates xs with
  | [] => Val.nd
  | h :: t => t.foldl (modeBetter (modeCandidates xs)) h

/-- Inner aggregation of `mode_` in `reducers.py`: `stats.mode` guarded by
the all-no-data check. -/
def mode_f (xs : List Val) : Val :=
  let values := stats_mode xs
  if _is_all_nodata xs then Val.nd else values

/-- Value types of the promotion system (spec section on the value-type
lattice): numerical, boolean, categorical nominal, categorical ordinal and
coordinate values. -/
inductive VType where
  | numerical : VType
  | boolean : VType
  | nominal : VType
  | ordinal : VType
  | coordinate : VType
deriving DecidableEq

/-- Output of one reducer call: the reduced cells (one per input slice)
together with the declared value-type metadata of the output array.
`x.reduce` itself attaches no value-type metadata; promotion sets it. -/
structure ReducedArray where
  cells : List Val
  vtype : Option VType
deriving DecidableEq

/-- Embedding of the wrapper shared by every reducer in `reducers.py`:
`out = x.reduce(f, dim = dimension, **kwargs)` followed by
`if track_types: out.sq.promote_value_type(x, func = ..., manual = manual)`
and `return out`.  The input array is given as its slices along the reduced
dimension together with its declared value type `vt`.  `promote_value_type`
(semantique's xarray accessor, not under `src/`) is modelled from the spec:
it looks the input value type up in the `manual` promotion table, raises
`UnsupportedTypeError` when no entry exists, and otherwise sets the output
array's value-type metadata in place, leaving cells and shape alone. -/
def reduce_wrapper (f : List Val → Val) (manual : VType → Option VType)
    (slices : List (List Val)) (vt : VType) (track_types : Bool) :
    Except Unit ReducedArray :=
  let out : ReducedArray := { cells := slices.map f, vtype := none }
  if track_types then
    match manual vt with
    | some t => Except.ok { out with vtype := some t }
    | none => Except.error ()
  else Except.ok out

/-- Modelled from the spec: the `numerical_reducers` entry of
`TYPE_PROMOTION_TEMPLATES` (`processor/templates.py`, not under `src/`):
a numerical reducer only accepts numerical input and yields numerical
output. -/
def numerical_reducers (vt : VType) : Option VType :=
  if vt = VType.numerical then some VType.numerical else none

/-- Modelled from the spec: the `boolean_reducers` promotion table: a boolean
reducer always promotes to boolean. -/
def boolean_reducers (_ : VType) : Option VType := some VType.boolean

/-- Modelled from the spec: the `count_reducers` promotion table: a count
reducer accepts any type and yields numerical output. -/
def count_reducers (_ : VType) : Option VType := some VType.numerical

/-- Modelled from the spec: the `ordered_reducers` promotion table: order
statistics keep the type of numerical or ordinal input. -/
def ordered_reducers (vt : VType) : Option VType :=
  if vt = VType.numerical ∨ vt = VType.ordinal then some vt else none

/-- Modelled from the spec: the `universal_reducers` promotion table:
positional reducers keep the input type. -/
def universal_reducers (vt : VType) : Option VType := some vt

/-- The reducer `mean_` of `reducers.py` on a decomposed array. -/
def mean_ (x : List (List Val)) (vt : VType) (track_types : Bool) :=
  reduce_wrapper mean_f numerical_reducers x vt track_types

/-- The reducer `sum_` of `reducers.py` on a decomposed array. -/
def sum_ (x : List (List Val)) (vt : VType) (track_types : Bool) :=
  reduce_wrapper sum_f numerical_reducers x vt track_types

/-- The reducer `product_` of `reducers.py` on a decomposed array. -/
def product_ (x : List (List Val)) (vt : VType) (track_types : Bool) :=
  reduce_wrapper product_f numerical_reducers x vt track_types

/-- The reducer `variance_` of `reducers.py` on a decomposed array. -/
def variance_ (x : List (List Val)) (vt : VType) (track_types : Bool) :=
  reduce_wrapper variance_f numerical_reducers x vt track_types

/-- The reducer `standard_deviation_` of `reducers.py` on a decomposed
array. -/
def standard_deviation_ (x : List (List Val)) (vt : VType) (track_types : Bool) :=
  reduce_wrapper standard_deviation_f numerical_reducers x vt track_types

/-- The reducer `all_` of `reducers.py` on a decomposed array. -/
def all_ (x : List (List Val)) (vt : VType) (track_types : Bool) :=
  reduce_wrapper all_f boolean_reducers x vt track_types

/-- The reducer `any_` of `reducers.py` on a decomposed array. -/
def any_ (x : List (List Val)) (vt : VType) (track_types : Bool) :=
  reduce_wrapper any_f boolean_reducers x vt track_types

/-- The reducer `count_` of `reducers.py` on a decomposed array. -/
def count_ (x : List (List Val)) (vt : VType) (track_types : Bool) :=
  reduce_wrapper count_f count_reducers x vt track_types

/-- The reducer `percentage_` of `reducers.py` on a decomposed array. -/
def percentage_ (x : List (List Val)) (vt : VType) (track_types : Bool) :=
  reduce_wrapper percentage_f count_reducers x vt track_types

/-- The reducer `max_` of `reducers.py` on a decomposed array. -/
def max_ (x : List (List Val)) (vt : VType) (track_types : Bool) :=
  reduce_wrapper nanmax_f ordered_reducers x vt track_types

/-- The reducer `min_` of `reducers.py` on a decomposed array. -/
def min_ (x : List (List Val)) (vt : VType) (track_types : Bool) :=
  reduce_wrapper nanmin_f ordered_reducers x vt track_types

/-- The reducer `median_` of `reducers.py` on a decomposed array. -/
def median_ (x : List (List Val)) (vt : VType) (track_types : Bool) :=
  reduce_wrapper median_f ordered_reducers x vt track_types

/-- The reducer `first_` of `reducers.py` on a decomposed array. -/
def first_ (x : List (List Val)) (vt : VType) (track_types : Bool) :=
  reduce_wrapper first_f universal_reducers x vt track_types

/-- The reducer `mode_` of `reducers.py` on a decomposed array. -/
def mode_ (x : List (List Val)) (vt : VType) (track_types : Bool) :=
  reduce_wrapper mode_f universal_reducers x vt track_types

/-- Modelled from the spec: an expression tree of a recipe entry
(`semantique.blocks`, not under `src/`): a reference to a datacube layer, or
a reduction applied to a sub-expression.  Reducing here collapses the
referenced array, viewed as a single slice, to one cell. -/
inductive Expr where
  | layerRef (name : String) : Expr
  | reduceOp (child : Expr) (red : String) : Expr
deriving DecidableEq

/-- Modelled from the spec: the datacube backend, resolving layer names to
arrays. -/
abbrev Datacube := List (String × List Val)

/-- Modelled from the spec: the mapping backend, translating semantic concept
names into expressions over datacube layers. -/
abbrev Mapping := List (String × Expr)

/-- Modelled from the spec: a spatial extent descriptor. -/
structure SpatialExtent where
  bound : ℤ

/-- Modelled from the spec: a temporal extent descriptor. -/
structure TemporalExtent where
  start : ℤ
  stop : ℤ

/-- Modelled from the spec: the free-form configuration options forwarded to
the parse phase. -/
abbrev Config := List (String × ℤ)

/-- A recipe: the ordered mapping from result names to expression trees
(the Python class is a `dict` subclass; insertion order is preserved). -/
abbrev QueryRecipe := List (String × Expr)

/-- The reducers of the operation library by name, as used when executing a
`reduceOp` node. -/
def reducerByName : String → Option (List Val → Val)
  | "mean" => some mean_f
  | "sum" => some sum_f
  | "product" => some product_f
  | "variance" => some variance_f
  | "standard_deviation" => some standard_deviation_f
  | "all" => some all_f
  | "any" => some any_f
  | "count" => some count_f
  | "percentage" => some percentage_f
  | "max" => some nanmax_f
  | "min" => some nanmin_f
  | "median" => some median_f
  | "first" => some first_f
  | "mode" => some mode_f
  | _ => none

/-- Modelled from the spec: evaluation of one expression tree bottom-up
against the datacube backend; `none` on an unknown layer or reducer name. -/
def evalExpr (dc : Datacube) : Expr → Option (List Val)
  | .layerRef n => dc.lookup n
  | .reduceOp child r =>
    match evalExpr dc child, reducerByName r with
    | some a, some f => some [f a]
    | _, _ => none

/-- Modelled from the spec: the state of one `QueryProcessor` instance: the
evaluation plan, the handles and extents it was parsed with, the
configuration options stored verbatim, and the trace of the phases run so
far. -/
structure QueryProcessor where
  plan : List (String × Expr)
  datacube : Datacube
  mapping : Mapping
  space : SpatialExtent
  time : TemporalExtent
  config : Config
  history : List String

/-- Modelled from the spec: `QueryProcessor.parse` (`processor/core.py`, not
under `src/`): builds the evaluation plan from the recipe, binds the
datacube and mapping handles restricted to the extents, and stores every
configuration option verbatim. -/
def QueryProcessor.parse (recipe : QueryRecipe) (datacube : Datacube)
    (mapping : Mapping) (space : SpatialExtent) (time : TemporalExtent)
    (config : Config) : QueryProcessor :=
  { plan := recipe, datacube := datacube, mapping := mapping, space := space,
    time := time, config := config, history := ["parse"] }

/-- Modelled from the spec: `QueryProcessor.optimize`: a semantics-preserving
rewrite of the plan; the spec leaves the rewrite strategy free, so it is
modelled as the identity rewrite. -/
def QueryProcessor.optimize (qp : QueryProcessor) : QueryProcessor :=
  { qp with history := qp.history ++ ["optimize"] }

/-- Modelled from the spec: evaluation of the plan entry by entry, failing
with the offending result name on the first error and producing no partial
results. -/
def execPlan (dc : Datacube) : List (String × Expr) → Except String (List (String × List Val))
  | [] => Except.ok []
  | (n, e) :: rest =>
    match evalExpr dc e with
    | some a => (execPlan dc rest).map (fun r => (n, a) :: r)
    | none => Except.error n

/-- Modelled from the spec: `QueryProcessor.execute`: one output array per
plan entry, keyed by the original result name; the phase trace run so far is
returned alongside the result mapping. -/
def QueryProcessor.execute (qp : QueryProcessor) :
    Except String (List (String × List Val)) × List String :=
  (execPlan qp.datacube qp.plan, qp.history ++ ["execute"])

/-- Embedding of `QueryRecipe.execute` from `recipe.py`:
`qp = QueryProcessor.parse(self, datacube, mapping, space, time, **config)`
followed by `return qp.optimize().execute()`. -/
def QueryRecipe.execute (self : QueryRecipe) (datacube : Datacube)
    (mapping : Mapping) (space : SpatialExtent) (time : TemporalExtent)
    (config : Config) : Except String (List (String × List Val)) × List String :=
  let qp := QueryProcessor.parse self datacube mapping space time config
  (qp.optimize).execute

/-- Embedding of `QueryRecipe.__init__` from `recipe.py`:
`obj = dict() if results is None else results` (the Python literal is an
empty dict display) followed by
`super(QueryRecipe, self).__init__(obj)`. -/
def QueryRecipe.init (results : Option (List (String × Expr))) : QueryRecipe :=
  match results with
  | none => []
  | some d => d

/-- `r` is at least as good a mode candidate as `v` with respect to the
multiset `ys`: strictly more frequent, or equally frequent and no larger. -/
def ModeGood (ys : List Val) (r v : Val) : Prop :=
  ys.count v < ys.count r ∨ (ys.count v = ys.count r ∧ key r ≤ key v)

/-!
Helper lemmas.
-/

lemma _is_all_nodata_iff (xs : List Val) :
    _is_all_nodata xs = true ↔ ∀ v ∈ xs, isFinite v = false := by
  simp [_is_all_nodata, countFinite, List.countP_eq_zero]

lemma _is_all_nodata_eq_false (xs : List Val) (h : 0 < countFinite xs) :
    _is_all_nodata xs = false := by
  have hne : countFinite xs ≠ 0 := by omega
  simp [_is_all_nodata, hne]

lemma countTrue_eq (xs : List Val) :
    (_nodata_as_zero xs).countP (fun v => v != Val.fin 0)
      = xs.countP (fun v => isFinite v && (v != Val.fin 0)) := by
  unfold _nodata_as_zero
  rw [List.countP_map]
  congr 1
  funext v
  cases v <;> simp [isFinite]

lemma anyTrue_eq (xs : List Val) :
    (_nodata_as_zero xs).any (fun v => v != Val.fin 0)
      = xs.any (fun v => isFinite v && (v != Val.fin 0)) := by
  unfold _nodata_as_zero
  rw [List.any_map]
  congr 1
  funext v
  cases v <;> simp [isFinite, Function.comp]

lemma countFinite_filter (xs : List Val) :
    countFinite (xs.filter (fun v => isFinite v)) = countFinite xs := by
  unfold countFinite
  rw [List.countP_filter]
  congr 1
  funext v
  cases isFinite v <;> simp

lemma percentage_general (xs : List Val) (h : 0 < countFinite xs) :
    percentage_f xs
      = Val.fin (100 * ((_nodata_as_zero xs).countP (fun v => v != Val.fin 0) : ℚ)
          / (countFinite xs : ℚ)) := by
  obtain ⟨m, hm⟩ : ∃ m, countFinite xs = m + 1 := ⟨countFinite xs - 1, by omega⟩
  have hg := _is_all_nodata_eq_false xs h
  simp only [percentage_f, hg, Bool.false_eq_true, if_false, hm]
  simp only [vdivNat, vmul]
  rw [Val.fin.injEq]
  push_cast
  ring

lemma execPlan_keys (dc : Datacube) :
    ∀ (l : List (String × Expr)) (res : List (String × List Val)),
      execPlan dc l = Except.ok res → res.map Prod.fst = l.map Prod.fst := by
  intro l
  induction l with
  | nil =>
    intro res h
    simp only [execPlan] at h
    cases h
    rfl
  | cons p rest ih =>
    intro res h
    obtain ⟨n, e⟩ := p
    simp only [execPlan] at h
    cases he : evalExpr dc e with
    | none => rw [he] at h; cases h
    | some a =>
      rw [he] at h
      cases hr : execPlan dc rest with
      | error s => rw [hr] at h; cases h
      | ok r =>
        rw [hr] at h
        simp only [Except.map] at h
        cases h
        simp [ih r hr]

lemma cumsum_cons (a : ℕ) (l : List ℕ) :
    cumsum (a :: l) = a :: (cumsum l).map (fun c => a + c) := rfl

lemma cumsum_zero_cons (l : List ℕ) : cumsum (0 :: l) = 0 :: cumsum l := by
  simp [cumsum_cons]

lemma one_le_of_mem_cumsum {l : List ℕ} (hl : ∀ x ∈ l, 1 ≤ x) :
    ∀ y ∈ cumsum l, 1 ≤ y := by
  cases l with
  | nil => simp [cumsum]
  | cons a t =>
    intro y hy
    rw [cumsum_cons] at hy
    rcases List.mem_cons.mp hy with h | h
    · subst h
      exact hl _ (List.mem_cons_self _ _)
    · obtain ⟨c, _, rfl⟩ := List.mem_map.mp h
      have := hl a (List.mem_cons_self a t)
      omega

lemma nanmax_f_nd_cons (z : List Val) : nanmax_f (Val.nd :: z) = nanmax_f z := by
  simp [nanmax_f, List.filter_cons]

lemma nanmax_f_cons_all_nd (v : Val) (z : List Val) (hv : v ≠ Val.nd)
    (hz : ∀ w ∈ z, w = Val.nd) : nanmax_f (v :: z) = v := by
  unfold nanmax_f
  have h1 : (v :: z).filter (fun w => w != Val.nd) = [v] := by
    rw [List.filter_cons]
    have hb : (v != Val.nd) = true := by simp [hv]
    rw [hb]
    simp only [if_true]
    rw [List.filter_eq_nil_iff.mpr]
    intro w hw
    simp [hz w hw]
  rw [h1]
  rfl

lemma zipWith_mask_all_false (xs : List Val) (bs : List Bool)
    (hb : ∀ b ∈ bs, b = false) :
    ∀ w ∈ List.zipWith (fun v b => if b then v else Val.nd) xs bs, w = Val.nd := by
  induction xs generalizing bs with
  | nil => simp
  | cons v xs ih =>
    cases bs with
    | nil => simp
    | cons b bs =>
      intro w hw
      rw [List.zipWith_cons_cons] at hw
      rcases List.mem_cons.mp hw with h | h
      · have hb0 := hb b (List.mem_cons_self b bs)
        subst hb0
        simpa using h
      · exact ih bs (fun c hc => hb c (List.mem_cons.mpr (Or.inr hc))) w h

lemma mask_tail_false (l : List ℕ) :
    ∀ b ∈ ((cumsum (l.map (fun c => 1 + c))).map (fun c => 1 + c)).map
        (fun c => c == 1), b = false := by
  intro b hb
  obtain ⟨c, hc, rfl⟩ := List.mem_map.mp hb
  obtain ⟨d, hd, rfl⟩ := List.mem_map.mp hc
  have hd1 : 1 ≤ d := by
    refine one_le_of_mem_cumsum ?_ d hd
    intro x hx
    obtain ⟨y, _, rfl⟩ := List.mem_map.mp hx
    omega
  simp
  omega

lemma first_f_eq (xs : List Val) : first_f xs = firstFiniteSpec xs := by
  induction xs with
  | nil => rfl
  | cons v xs ih =>
    cases hv : isFinite v with
    | false =>
      have hstep : first_f (v :: xs) = first_f xs := by
        unfold first_f
        simp only [List.map_cons, hv, Bool.false_eq_true, if_false]
        rw [cumsum_zero_cons, cumsum_zero_cons]
        simp only [List.map_cons]
        rw [List.zipWith_cons_cons]
        have h01 : ((0 == 1) : Bool) = false := by decide
        rw [h01]
        simp only [Bool.false_eq_true, if_false]
        exact nanmax_f_nd_cons _
      rw [hstep, ih]
      unfold firstFiniteSpec
      rw [List.find?_cons_of_neg]
      simp [hv]
    | true =>
      have hv' : v ≠ Val.nd := by
        cases v <;> simp_all [isFinite]
      have hspec : firstFiniteSpec (v :: xs) = v := by
        unfold firstFiniteSpec
        rw [List.find?_cons_of_pos _ hv]
      rw [hspec]
      unfold first_f
      simp only [List.map_cons, hv, if_true]
      rw [cumsum_cons, cumsum_cons]
      simp only [List.map_cons]
      rw [List.zipWith_cons_cons]
      have h11 : ((1 == 1) : Bool) = true := by decide
      rw [h11]
      simp only [if_true]
      apply nanmax_f_cons_all_nd v _ hv'
      apply zipWith_mask_all_false
      exact mask_tail_false _

lemma modeGood_refl (ys : List Val) (r : Val) : ModeGood ys r r :=
  Or.inr ⟨rfl, le_refl _⟩

lemma modeBetter_eq_or (ys : List Val) (a b : Val) :
    modeBetter ys a b = a ∨ modeBetter ys a b = b := by
  unfold modeBetter
  split
  · exact Or.inr rfl
  · exact Or.inl rfl

lemma modeGood_better_left (ys : List Val) (a b : Val) :
    ModeGood ys (modeBetter ys a b) a := by
  unfold modeBetter
  split
  · rename_i h
    rcases h with h | ⟨h1, h2⟩
    · exact Or.inl h
    · exact Or.inr ⟨h1.symm, le_of_lt h2⟩
  · exact modeGood_refl ys a

lemma modeGood_better_right (ys : List Val) (a b : Val) :
    ModeGood ys (modeBetter ys a b) b := by
  unfold modeBetter
  split
  · exact modeGood_refl ys b
  · rename_i h
    push_neg at h
    obtain ⟨h1, h2⟩ := h
    rcases Nat.lt_or_ge (ys.count b) (ys.count a) with hlt | hge
    · exact Or.inl hlt
    · have heq : ys.count b = ys.count a := le_antisymm h1 hge
      exact Or.inr ⟨heq, h2 heq⟩

lemma modeGood_trans (ys : List Val) {a b c : Val}
    (h1 : ModeGood ys a b) (h2 : ModeGood ys b c) : ModeGood ys a c := by
  rcases h1 with h1 | ⟨h1a, h1b⟩ <;> rcases h2 with h2 | ⟨h2a, h2b⟩
  · exact Or.inl (lt_trans h2 h1)
  · exact Or.inl (h2a ▸ h1)
  · exact Or.inl (h1a ▸ h2)
  · exact Or.inr ⟨h2a.trans h1a, le_trans h1b h2b⟩

lemma foldl_modeBetter (ys : List Val) (t : List Val) (a : Val) :
    t.foldl (modeBetter ys) a ∈ a :: t ∧
    ModeGood ys (t.foldl (modeBetter ys) a) a ∧
    ∀ v ∈ t, ModeGood ys (t.foldl (modeBetter ys) a) v := by
  induction t generalizing a with
  | nil =>
    refine ⟨List.mem_cons_self _ _, modeGood_refl ys a, ?_⟩
    intro v hv
    cases hv
  | cons b t ih =>
    have h := ih (modeBetter ys a b)
    rw [List.foldl_cons]
    refine ⟨?_, ?_, ?_⟩
    · rcases List.mem_cons.mp h.1 with hm | hm
      · rcases modeBetter_eq_or ys a b with hab | hab
        · exact List.mem_cons.mpr (Or.inl (hm.trans hab))
        · exact List.mem_cons.mpr (Or.inr (List.mem_cons.mpr (Or.inl (hm.trans hab))))
      · exact List.mem_cons.mpr (Or.inr (List.mem_cons.mpr (Or.inr hm)))
    · exact modeGood_trans ys h.2.1 (modeGood_better_left ys a b)
    · intro v hv
      rcases List.mem_cons.mp hv with hv | hv
      · subst hv
        exact modeGood_trans ys h.2.1 (modeGood_better_right ys a v)
      · exact h.2.2 v hv

lemma modeCandidates_ne_nil (xs : List Val) (h : 0 < countFinite xs) :
    modeCandidates xs ≠ [] := by
  obtain ⟨v, hv, hfin⟩ := List.countP_pos_iff.mp h
  have hv' : v ∈ modeCandidates xs := by
    unfold modeCandidates
    rw [List.mem_filter]
    refine ⟨hv, ?_⟩
    cases v <;> simp_all [isFinite]
  exact List.ne_nil_of_mem hv'

lemma mode_f_good (xs : List Val) (h : 0 < countFinite xs) :
    mode_f xs ∈ modeCandidates xs ∧
    ∀ v ∈ modeCandidates xs, ModeGood (modeCandidates xs) (mode_f xs) v := by
  have hg := _is_all_nodata_eq_false xs h
  have hm : mode_f xs = stats_mode xs := by
    simp [mode_f, hg]
  rw [hm]
  cases hc : modeCandidates xs with
  | nil => exact absurd hc (modeCandidates_ne_nil xs h)
  | cons b t =>
    have hs : stats_mode xs = t.foldl (modeBetter (b :: t)) b := by
      simp [stats_mode, hc]
    rw [hs]
    have hf := foldl_modeBetter (b :: t) t b
    refine ⟨hf.1, ?_⟩
    intro v hv
    rcases List.mem_cons.mp hv with hv | hv
    · subst hv
      exact hf.2.1
    · exact hf.2.2 v hv

lemma foldl_vadd_zero (l : List Val) (h : ∀ v ∈ l, v = Val.fin 0) :
    l.foldl vadd (Val.fin 0) = Val.fin 0 := by
  induction l with
  | nil => rfl
  | cons v t ih =>
    have hv := h v (List.mem_cons_self v t)
    rw [List.foldl_cons, hv]
    have hz : vadd (Val.fin 0) (Val.fin 0) = Val.fin 0 := by simp [vadd]
    rw [hz]
    exact ih (fun w hw => h w (List.mem_cons.mpr (Or.inr hw)))

/-- Every reducer except `any_` (and the broken `last_`) maps a slice that
consists entirely of no-data cells to the no-data marker: the numerical
reducers through NaN propagation or the explicit guard, the guarded boolean,
count and mode reducers through the guard, and the order and positional
reducers because no cell survives their NaN filters. -/
theorem all_nodata_slices_reduce_to_nodata (xs : List Val)
    (h : ∀ v ∈ xs, v = Val.nd) :
    mean_f xs = Val.nd ∧ sum_f xs = Val.nd ∧ product_f xs = Val.nd ∧
    variance_f xs = Val.nd ∧ standard_deviation_f xs = Val.nd ∧
    all_f xs = Val.nd ∧ count_f xs = Val.nd ∧ percentage_f xs = Val.nd ∧
    nanmax_f xs = Val.nd ∧ nanmin_f xs = Val.nd ∧ median_f xs = Val.nd ∧
    first_f xs = Val.nd ∧ mode_f xs = Val.nd := by
  have hfin : ∀ v ∈ xs, isFinite v = false := fun v hv => by rw [h v hv]; rfl
  have hg : _is_all_nodata xs = true := (_is_all_nodata_iff xs).mpr hfin
  have hfil : xs.filter (fun v => v != Val.nd) = [] := by
    rw [List.filter_eq_nil_iff]
    intro v hv
    simp [h v hv]
  have hsum : nansum xs = Val.fin 0 := by
    unfold nansum
    apply foldl_vadd_zero
    intro v hv
    obtain ⟨w, hw, rfl⟩ := List.mem_map.mp hv
    simp [h w hw]
  have hcnt : xs.countP (fun v => v != Val.nd) = 0 := by
    rw [List.countP_eq_zero]
    intro v hv
    simp [h v hv]
  have hvar : variance_f xs = Val.nd := by
    unfold variance_f
    rw [hfil]
    simp [vdivNat]
  refine ⟨?_, ?_, ?_, hvar, ?_, ?_, ?_, ?_, ?_, ?_, ?_, ?_, ?_⟩
  · unfold mean_f
    rw [hsum, hcnt]
    simp [vdivNat]
  · simp [sum_f, hg]
  · simp [product_f, hg]
  · simp [standard_deviation_f, hvar, vsqrt]
  · simp [all_f, hg]
  · simp [count_f, hg]
  · simp [percentage_f, hg, vdivNat, vmul]
  · simp [nanmax_f, hfil]
  · simp [nanmin_f, hfil]
  · simp [median_f, hfil]
  · rw [first_f_eq]
    unfold firstFiniteSpec
    rw [List.find?_eq_none.mpr]
    intro v hv
    simp [hfin v hv]
  · simp [mode_f, hg]

/-!
Claim theorems.
-/

/-- C1: the claim states that every reducer, `any` and `count` included,
yields no-data at every output position whose reduced slice is entirely
no-data.  The code of `any_` violates this: its inner aggregation
`np.any(_nodata_as_zero(x), axis)` carries no all-no-data guard, so the
all-no-data slice `[NaN, NaN]` reduces to the boolean false, which is not
the no-data marker. -/
theorem any_on_all_nodata_slice_is_false :
    any_f [Val.nd, Val.nd] = ofBool false ∧ ofBool false ≠ Val.nd := by
  constructor
  · decide
  · decide

/-- C2: the claim states that `last` equals `first` applied to the reversed
dimension and returns 5 on the slice `[NaN, 2, NaN, 5]`.  The code of
`last_` raises `TypeError` on every input (its inner function calls
`first_` without the required `dimension` argument and on a bare NumPy
array); the aggregation modelled from the spec's words satisfies the claim:
it returns 5 on the example slice and in general returns the first finite
cell of the reversed slice. -/
theorem last_spec_is_first_on_reversed :
    last_spec [Val.nd, Val.fin 2, Val.nd, Val.fin 5] = Val.fin 5 ∧
    ∀ xs : List Val, last_spec xs = firstFiniteSpec xs.reverse :=
  ⟨by decide, fun xs => first_f_eq xs.reverse⟩

/-- C3: the `first` reducer, computed by marking the position where the
twice-cumulated finite-cell count equals 1 and selecting it, returns the
value of the first finite cell of the reduced slice in coordinate order (and
no-data when there is none); on `[NaN, 2, NaN, 5]` it returns 2. -/
theorem first_returns_first_finite_cell :
    (∀ xs : List Val, first_f xs = firstFiniteSpec xs) ∧
    first_f [Val.nd, Val.fin 2, Val.nd, Val.fin 5] = Val.fin 2 :=
  ⟨first_f_eq, by decide⟩

/-- C4 counterexample: the claim states that `mode` returns the most
frequent finite value of each reduced slice.  On the slice
`[+inf, +inf, 1]` the only finite value, hence the most frequent finite
value, is 1, but `stats.mode` with `nan_policy = "omit"` omits only NaN, so
the code returns `+inf`, and the all-no-data guard does not fire because
the slice contains a finite cell. -/
theorem mode_infinite_cell_counterexample :
    mode_f [Val.pinf, Val.pinf, Val.fin 1] = Val.pinf ∧
    Val.pinf ≠ Val.fin 1 := by
  constructor
  · decide
  · decide

/-- C4 amended: for every reduced slice containing at least one finite
cell, `mode` returns one of the non-NaN cells of the slice (infinite cells
participate as candidate values), every candidate occurs at most as often
as the returned value, and any candidate tied for the highest frequency is
at least as large as the returned value — so ties are broken towards the
smallest tied value; on a slice where the finite values 1 and 3 each appear
twice and the other value once, it returns 1. -/
theorem mode_smallest_most_frequent_nonnan :
    (∀ xs : List Val, 0 < countFinite xs →
      mode_f xs ∈ modeCandidates xs ∧
      ∀ v ∈ modeCandidates xs, ModeGood (modeCandidates xs) (mode_f xs) v) ∧
    mode_f [Val.fin 1, Val.fin 3, Val.fin 1, Val.fin 3, Val.fin 2] = Val.fin 1 := by
  constructor
  · exact mode_f_good
  · decide

/-- C4 witness: the amended mode theorem applied to the concrete slice
`[2, NaN]`, whose hypothesis holds by computation. -/
theorem mode_smallest_most_frequent_nonnan_witness :
    0 < countFinite [Val.fin 2, Val.nd] ∧
    (mode_f [Val.fin 2, Val.nd] ∈ modeCandidates [Val.fin 2, Val.nd] ∧
      ∀ v ∈ modeCandidates [Val.fin 2, Val.nd],
        ModeGood (modeCandidates [Val.fin 2, Val.nd]) (mode_f [Val.fin 2, Val.nd]) v) :=
  ⟨by decide, mode_smallest_most_frequent_nonnan.1 [Val.fin 2, Val.nd] (by decide)⟩

/-- C5: for every reduced slice with at least one finite cell, `percentage`
returns the count of true-equivalent cells divided by the count of finite
cells, multiplied by 100 — and the counted cells are exactly the finite
nonzero cells of the slice. -/
theorem percentage_ratio_of_true_to_finite (xs : List Val)
    (h : 0 < countFinite xs) :
    percentage_f xs
        = Val.fin (100 * ((_nodata_as_zero xs).countP (fun v => v != Val.fin 0) : ℚ)
            / (countFinite xs : ℚ)) ∧
    (_nodata_as_zero xs).countP (fun v => v != Val.fin 0)
        = xs.countP (fun v => isFinite v && (v != Val.fin 0)) :=
  ⟨percentage_general xs h, countTrue_eq xs⟩

/-- C5 witness: on the slice `[true, true, false, NaN]`, embedded as
`[1, 1, 0, NaN]`, the percentage is 200/3, i.e. 66.666..., two of the
three finite cells being true. -/
theorem percentage_ratio_witness :
    0 < countFinite [Val.fin 1, Val.fin 1, Val.fin 0, Val.nd] ∧
    percentage_f [Val.fin 1, Val.fin 1, Val.fin 0, Val.nd] = Val.fin (200 / 3) := by
  refine ⟨by decide, ?_⟩
  have h2 : (_nodata_as_zero [Val.fin 1, Val.fin 1, Val.fin 0, Val.nd]).countP
      (fun v => v != Val.fin 0) = 2 := by decide
  have h3 : countFinite [Val.fin 1, Val.fin 1, Val.fin 0, Val.nd] = 3 := by decide
  have h := (percentage_ratio_of_true_to_finite
      [Val.fin 1, Val.fin 1, Val.fin 0, Val.nd] (by decide)).1
  rw [h, h2, h3]
  rw [Val.fin.injEq]
  norm_num

/-- C6: in `any`, no-data cells are coerced to a false-equivalent by
`_nodata_as_zero`, so `any` returns true exactly when some finite cell of
the slice is true-equivalent (nonzero); in particular no-data cells never
make the result true.  This holds for every slice, hence in particular for
every slice containing at least one finite cell. -/
theorem any_true_iff_some_finite_true (xs : List Val) :
    any_f xs = ofBool true ↔ ∃ v ∈ xs, isFinite v = true ∧ v ≠ Val.fin 0 := by
  unfold any_f
  rw [anyTrue_eq]
  have hb : ∀ b, (ofBool b = ofBool true ↔ b = true) := by
    intro b
    cases b <;> simp [ofBool]
  rw [hb]
  simp [List.any_eq_true, bne_iff_ne]

/-- C7: the shared reducer wrapper with `track_types = false` skips the
promotion step and leaves the output's value-type metadata untouched; with
`track_types = true` it applies the promotion table exactly once to the
input's value type; in either case the output cells are the slice-wise
aggregations of the input, identical across the two settings. -/
theorem reduce_wrapper_track_types_contract (f : List Val → Val)
    (manual : VType → Option VType) (slices : List (List Val)) (vt t : VType)
    (h : manual vt = some t) :
    reduce_wrapper f manual slices vt false
        = Except.ok { cells := slices.map f, vtype := none } ∧
    reduce_wrapper f manual slices vt true
        = Except.ok { cells := slices.map f, vtype := some t } := by
  unfold reduce_wrapper
  simp [h]

/-- C7 witness: the wrapper contract applied to the `count` reducer on an
ordinal-typed input of one all-no-data slice, whose promotion-table
hypothesis holds by computation. -/
theorem reduce_wrapper_track_types_witness :
    count_reducers VType.ordinal = some VType.numerical ∧
    reduce_wrapper count_f count_reducers [[Val.nd]] VType.ordinal false
        = Except.ok { cells := [Val.nd], vtype := none } ∧
    reduce_wrapper count_f count_reducers [[Val.nd]] VType.ordinal true
        = Except.ok { cells := [Val.nd], vtype := some VType.numerical } := by
  have h := reduce_wrapper_track_types_contract count_f count_reducers
      [[Val.nd]] VType.ordinal VType.numerical rfl
  have hc : ([[Val.nd]].map count_f) = [Val.nd] := by decide
  exact ⟨rfl, by rw [h.1, hc], by rw [h.2, hc]⟩

/-- C8: `QueryRecipe.execute` performs exactly the three phases in order —
parse on the recipe with the configuration options forwarded verbatim, then
optimize on the parsed processor, then execute on the optimized processor —
and returns the result of that execute call, a mapping carrying exactly the
recipe's result names in order. -/
theorem query_recipe_execute_phases (r : QueryRecipe) (dc : Datacube)
    (mp : Mapping) (sp : SpatialExtent) (tm : TemporalExtent) (cfg : Config) :
    QueryRecipe.execute r dc mp sp tm cfg
        = (QueryProcessor.optimize (QueryProcessor.parse r dc mp sp tm cfg)).execute
      ∧ (QueryProcessor.parse r dc mp sp tm cfg).config = cfg
      ∧ (QueryRecipe.execute r dc mp sp tm cfg).snd = ["parse", "optimize", "execute"]
      ∧ ∀ res, (QueryRecipe.execute r dc mp sp tm cfg).fst = Except.ok res →
          res.map Prod.fst = r.map Prod.fst :=
  ⟨rfl, rfl, rfl, fun res h => execPlan_keys dc r res h⟩

/-- C8 witness: the phase theorem applied to a one-entry recipe over a
one-layer datacube, whose execute-succeeds hypothesis holds by
computation. -/
theorem query_recipe_execute_phases_witness :
    (QueryRecipe.execute [("a", Expr.layerRef "L")] [("L", [Val.fin 1])] []
        ⟨0⟩ ⟨0, 1⟩ [("crs", 3035)]).fst = Except.ok [("a", [Val.fin 1])] ∧
    ([("a", [Val.fin 1])] : List (String × List Val)).map Prod.fst
      = ([("a", Expr.layerRef "L")] : List (String × Expr)).map Prod.fst := by
  have h : (QueryRecipe.execute [("a", Expr.layerRef "L")] [("L", [Val.fin 1])] []
      ⟨0⟩ ⟨0, 1⟩ [("crs", 3035)]).fst = Except.ok [("a", [Val.fin 1])] := rfl
  exact ⟨h, (query_recipe_execute_phases [("a", Expr.layerRef "L")]
      [("L", [Val.fin 1])] [] ⟨0⟩ ⟨0, 1⟩ [("crs", 3035)]).2.2.2 _ h⟩

/-- C9: infinities are treated as no-data by the reducer helpers: the
all-no-data predicate counts only finite cells, the false-coercion helper
maps NaN and both infinities to zero, and consequently `any`, `count` and
`percentage` depend only on the finite cells of their slice — dropping
every NaN and infinite cell leaves each of the three aggregations
unchanged. -/
theorem infinities_treated_as_nodata :
    (∀ xs : List Val, (_is_all_nodata xs = true ↔ ∀ v ∈ xs, isFinite v = false)) ∧
    _nodata_as_zero [Val.nd, Val.pinf, Val.ninf] = [Val.fin 0, Val.fin 0, Val.fin 0] ∧
    (∀ xs : List Val,
      any_f (xs.filter (fun v => isFinite v)) = any_f xs ∧
      count_f (xs.filter (fun v => isFinite v)) = count_f xs ∧
      percentage_f (xs.filter (fun v => isFinite v)) = percentage_f xs) := by
  refine ⟨_is_all_nodata_iff, rfl, ?_⟩
  intro xs
  have hg : _is_all_nodata (xs.filter (fun v => isFinite v)) = _is_all_nodata xs := by
    simp [_is_all_nodata, countFinite_filter]
  have hc : (_nodata_as_zero (xs.filter (fun v => isFinite v))).countP
        (fun v => v != Val.fin 0)
      = (_nodata_as_zero xs).countP (fun v => v != Val.fin 0) := by
    rw [countTrue_eq, countTrue_eq, List.countP_filter]
    congr 1
    funext v
    cases h : isFinite v <;> simp [h]
  refine ⟨?_, ?_, ?_⟩
  · unfold any_f
    rw [anyTrue_eq, anyTrue_eq, List.any_filter]
    simp [Bool.and_self_left]
  · unfold count_f
    rw [hg, hc]
  · unfold percentage_f
    rw [hg, hc, countFinite_filter]

/-- C10: a recipe constructed with no argument is the empty mapping, and a
recipe constructed from a dictionary of result instructions contains
exactly that dictionary's name-to-instruction entries, unchanged and in
order. -/
theorem query_recipe_init_entries :
    QueryRecipe.init none = ([] : QueryRecipe) ∧
    ∀ d : List (String × Expr), QueryRecipe.init (some d) = d :=
  ⟨rfl, fun _ => rfl⟩

end Semantique
